import Mathlib

set_option maxRecDepth 8000

/-!
Verification development for the conformal-classification utility module
(`utils.py`).  The Python/NumPy/PyTorch code is shallowly embedded: float
arrays become `List (List Rat)` (row-major), integer vectors become
`List Nat`, boolean prediction-set matrices become `List (List Bool)`,
fallible operations (Python exceptions) return `Option`/`Except`, and the
on-disk pickle cache becomes an explicit map from file names to file
contents.
-/

/-! ## Row-level NumPy helpers -/

/-- Comparison used to model `np.argsort` on one row: indices are ordered by
their score (ascending), ties broken by index, which makes the order total
and antisymmetric. -/
def argRel (row : List Rat) (a b : Nat) : Prop :=
  row.getD a 0 < row.getD b 0 ∨ (row.getD a 0 = row.getD b 0 ∧ a ≤ b)

instance (row : List Rat) : DecidableRel (argRel row) := fun a b =>
  inferInstanceAs (Decidable (_ ∨ _))

instance (row : List Rat) : IsTrans Nat (argRel row) where
  trans a b c hab hbc := by
    rcases hab with h1 | ⟨h1, h1'⟩ <;> rcases hbc with h2 | ⟨h2, h2'⟩
    · exact Or.inl (lt_trans h1 h2)
    · exact Or.inl (h2 ▸ h1)
    · exact Or.inl (h1 ▸ h2)
    · exact Or.inr ⟨h1.trans h2, le_trans h1' h2'⟩

instance (row : List Rat) : IsTotal Nat (argRel row) where
  total a b := by
    rcases lt_trichotomy (row.getD a 0) (row.getD b 0) with h | h | h
    · exact Or.inl (Or.inl h)
    · rcases Nat.le_total a b with h' | h'
      · exact Or.inl (Or.inr ⟨h, h'⟩)
      · exact Or.inr (Or.inr ⟨h.symm, h'⟩)
    · exact Or.inr (Or.inl h)

/-- `row.argsort()` (ascending), modelled as a sort of the index range by
score with ties broken by index. -/
def argsortAsc (row : List Rat) : List Nat :=
  List.insertionSort (argRel row) (List.range row.length)

/-- `row.argsort()[::-1]`: indices ordered by descending score. -/
def argsortDesc (row : List Rat) : List Nat :=
  (argsortAsc row).reverse

/-- `np.sort(row)` (ascending). -/
def sortAsc (row : List Rat) : List Rat :=
  List.insertionSort (· ≤ ·) row

/-- `np.sort(row)[::-1]`: the row sorted in descending order. -/
def sortDesc (row : List Rat) : List Rat :=
  (sortAsc row).reverse

/-- Running-sum accumulator behind `np.cumsum` on one row. -/
def cumsumFrom (acc : Rat) : List Rat → List Rat
  | [] => []
  | x :: t => (acc + x) :: cumsumFrom (acc + x) t

/-- `np.cumsum(row)`. -/
def npCumsum (row : List Rat) : List Rat :=
  cumsumFrom 0 row

/-- `sort_sum(scores)` from `utils.py`: per row, the indices sorted by
descending score, the scores sorted descending, and the cumulative sums of
the sorted scores. -/
def sort_sum (scores : List (List Rat)) :
    List (List Nat) × List (List Rat) × List (List Rat) :=
  let I := scores.map argsortDesc
  let ordered := scores.map sortDesc
  let cumsum := ordered.map npCumsum
  (I, ordered, cumsum)

/-! ## AverageMeter -/

/-- The mutable fields of the `AverageMeter` class (`name`/`fmt` only feed
`__str__` and are omitted). -/
structure AverageMeter where
  val : Rat
  avg : Rat
  sum : Rat
  count : Nat

/-- `AverageMeter.reset`: zeroes every statistic field. -/
def AverageMeter.reset (_ : AverageMeter) : AverageMeter :=
  { val := 0, avg := 0, sum := 0, count := 0 }

/-- `AverageMeter.update(val, n)`.  The Python body divides by the updated
`count`, so a zero count raises `ZeroDivisionError`, modelled as `none`. -/
def AverageMeter.update (m : AverageMeter) (val : Rat) (n : Nat) :
    Option AverageMeter :=
  let sum := m.sum + val * n
  let count := m.count + n
  if count = 0 then none
  else some { val := val, sum := sum, count := count, avg := sum / count }

/-- A sequence of `update` calls, aborting at the first raised exception. -/
def AverageMeter.runUpdates (m : AverageMeter) : List (Rat × Nat) → Option AverageMeter
  | [] => some m
  | (v, n) :: t =>
    match m.update v n with
    | none => none
    | some m' => m'.runUpdates t

/-! ## get_model -/

/-- The torchvision constructors reachable from `get_model`. -/
inductive TorchvisionModel where
  | resnet18 | resnet50 | resnet101 | resnet152 | resnext101_32x8d
  | vgg16 | shufflenet_v2_x1_0 | inception_v3 | densenet161
deriving DecidableEq

/-- `get_model(modelname)`: the `if/elif` dispatch over the nine recognized
names; any other name raises `NotImplementedError` (the `.eval()` /
`DataParallel` wrapping does not affect which constructor is chosen). -/
def get_model (modelname : String) : Except String TorchvisionModel :=
  if modelname = "ResNet18" then .ok .resnet18
  else if modelname = "ResNet50" then .ok .resnet50
  else if modelname = "ResNet101" then .ok .resnet101
  else if modelname = "ResNet152" then .ok .resnet152
  else if modelname = "ResNeXt101" then .ok .resnext101_32x8d
  else if modelname = "VGG16" then .ok .vgg16
  else if modelname = "ShuffleNet" then .ok .shufflenet_v2_x1_0
  else if modelname = "Inception" then .ok .inception_v3
  else if modelname = "DenseNet161" then .ok .densenet161
  else .error "NotImplementedError"

/-- The nine recognized architecture identifiers, in source order. -/
def recognizedModelNames : List String :=
  ["ResNet18", "ResNet50", "ResNet101", "ResNet152", "ResNeXt101",
   "VGG16", "ShuffleNet", "Inception", "DenseNet161"]

/-! ## Inference runner: get_logits_targets -/

/-- NumPy/torch slice assignment `tbl[i : i + rows.length] = rows` (the
callers below only use it in-bounds). -/
def setSlice {β : Type} (tbl : List β) (i : Nat) (rows : List β) : List β :=
  tbl.take i ++ rows ++ tbl.drop (i + rows.length)

/-- A torch `DataLoader`: the length of the underlying dataset plus the
batches it yields, each an (input batch, target batch) pair. -/
structure Loader (α : Type) where
  datasetLen : Nat
  batches : List (List α × List Nat)

/-- One loop iteration of `get_logits_targets`: run the model on the batch,
write the logits rows and labels at offset `i`, advance the cursor. -/
def runnerStep {α : Type} (model : α → List Rat)
    (st : List (List Rat) × List Rat × Nat) (b : List α × List Nat) :
    List (List Rat) × List Rat × Nat :=
  let (logits, labels, i) := st
  let batch_logits := b.1.map model
  (setSlice logits i batch_logits,
   setSlice labels i (b.2.map (fun t : Nat => (t : Rat))),
   i + b.1.length)

/-- The runner state after the first `k` batches: preallocated zero tables
(1000 Imagenet classes per row), then `k` iterations of the loop. -/
def runnerState {α : Type} (model : α → List Rat) (loader : Loader α) (k : Nat) :
    List (List Rat) × List Rat × Nat :=
  (loader.batches.take k).foldl (runnerStep model)
    (List.replicate loader.datasetLen (List.replicate 1000 (0 : Rat)),
     List.replicate loader.datasetLen (0 : Rat), 0)

/-- `get_logits_targets(model, loader)`: full pass over the loader, then the
dataset of logits and `labels.long()` (the labels written are integral nat
casts, so `.long()` is truncation to that integer value, modelled by the
floor). -/
def get_logits_targets {α : Type} (model : α → List Rat) (loader : Loader α) :
    List (List Rat) × List Int :=
  let final := runnerState model loader loader.batches.length
  (final.1, final.2.1.map (fun q => ⌊q⌋))

/-! ## Logit cache: get_logits_dataset -/

/-- The dataset bundled into a cache entry: logits rows and integer labels. -/
abbrev LogitDataset := List (List Rat) × List Int

/-- Contents of a cache file on disk: a pickle that round-trips to a
`LogitDataset`, or bytes `pickle.load` cannot deserialize. -/
inductive PickleFile where
  | valid : LogitDataset → PickleFile
  | corrupt : PickleFile

/-- The derived cache path `cache + datasetname + '/' + modelname + '.pkl'`. -/
def cacheFname (cache datasetname modelname : String) : String :=
  cache ++ datasetname ++ "/" ++ modelname ++ ".pkl"

/-- Result of one `get_logits_dataset` call: the returned dataset, the
file-system state after the call, and whether the inference pass ran (which
is also exactly when the cache file is written). -/
structure CacheCallResult where
  dataset : LogitDataset
  fs : String → Option PickleFile
  ranInference : Bool

/-- `get_logits_dataset(modelname, datasetname, datasetpath, cache)` over an
explicit file system `fs`.  If the derived file exists it is unpickled and
returned (raising `UnpicklingError` on corrupt bytes); otherwise the model
is instantiated (`get_model` can raise `NotImplementedError`), the inference
pass produces `computed` (the value `get_logits_targets` returns on the
loaded image folder), the file is written, and the dataset returned. -/
def get_logits_dataset (fs : String → Option PickleFile)
    (modelname datasetname _datasetpath cache : String)
    (computed : LogitDataset) : Except String CacheCallResult :=
  let fname := cacheFname cache datasetname modelname
  match fs fname with
  | some (.valid d) => .ok ⟨d, fs, false⟩
  | some .corrupt => .error "UnpicklingError"
  | none =>
    match get_model modelname with
    | .error e => .error e
    | .ok _ =>
      .ok ⟨computed, fun f => if f = fname then some (.valid computed) else fs f, true⟩

/-! ## Metrics engine: coverage_size and accuracy -/

/-- A boolean as the float NumPy uses in means (`True == 1.0`). -/
def b2r (b : Bool) : Rat := if b then 1 else 0

/-- `row.sum()` on one boolean prediction-set row: its cardinality. -/
def rowSize (row : List Bool) : Rat := (row.count true : Nat)

/-- `np.unique(targets)`: the distinct values in ascending order. -/
def npUnique (l : List Nat) : List Nat :=
  List.insertionSort (· ≤ ·) l.dedup

/-- `arr.min()` of a flattened NumPy array (callers only use it nonempty). -/
def lmin : List Rat → Rat
  | [] => 0
  | a :: t => t.foldl min a

/-- `arr.max()` of a flattened NumPy array (callers only use it nonempty). -/
def lmax : List Rat → Rat
  | [] => 0
  | a :: t => t.foldl max a

/-- `np.median` of a flattened array: middle of the sorted values, or the
mean of the two middle values when the length is even. -/
def npMedian (l : List Rat) : Rat :=
  let s := List.insertionSort (· ≤ ·) l
  if l.length % 2 = 1 then s.getD (l.length / 2) 0
  else (s.getD (l.length / 2 - 1) 0 + s.getD (l.length / 2) 0) / 2

/-- The indices of the examples whose true label is `cls`
(`targets == cls` as a selector). -/
def classIdx (targets : List Nat) (cls : Nat) : List Nat :=
  (List.range targets.length).filter (fun i => targets.getD i 0 == cls)

/-- `np.mean(sets[targets == cls, cls] == True)`: the fraction of examples
truly labeled `cls` whose prediction set contains `cls`. -/
def clsCvgVal (sets : List (List Bool)) (targets : List Nat) (cls : Nat) : Rat :=
  let idxs := classIdx targets cls
  (idxs.map (fun i => b2r ((sets.getD i []).getD cls false))).sum / idxs.length

/-- `sets[targets == cls, :].sum(1).mean()`: the mean prediction-set size
among examples truly labeled `cls`. -/
def clsSzVal (sets : List (List Bool)) (targets : List Nat) (cls : Nat) : Rat :=
  let idxs := classIdx targets cls
  (idxs.map (fun i => rowSize (sets.getD i []))).sum / idxs.length

/-- One `for i, cls in enumerate(classes)` iteration of `coverage_size`:
`cvgs[i] = ...` and `szs[i] = ...` fill row `i` of the (bugged-shape) zero
arrays, flattened row-major — `P` cells starting at offset `i * P` — and
raise `IndexError` (`none`) when `i ≥ counts[0]`. -/
def covStepPure (sets : List (List Bool)) (targets : List Nat) (c0 P : Nat)
    (acc : Option (List Rat × List Rat)) (p : Nat × Nat) :
    Option (List Rat × List Rat) :=
  match acc with
  | none => none
  | some (cvgs, szs) =>
    if p.1 < c0 then
      some (setSlice cvgs (p.1 * P) (List.replicate P (clsCvgVal sets targets p.2)),
            setSlice szs (p.1 * P) (List.replicate P (clsSzVal sets targets p.2)))
    else none

/-- `coverage_size(sets, targets)` from `utils.py`, including its
`cvgs, szs = np.zeros(counts), np.zeros(counts)` line: `counts` is the array
of class multiplicities, so `np.zeros(counts)` allocates an array whose
*shape* is the counts vector — `counts[0]` rows of `prod(counts[1:])` cells
each (modelled flattened in row-major order).  The loop assignment
`cvgs[i] = v` fills row `i` with `v` and raises `IndexError` when
`i ≥ counts[0]`.  `none` models a raised exception (index/shape errors) or
the NaN statistics produced on an empty target vector. -/
def coverage_size (sets : List (List Bool)) (targets : List Nat) :
    Option (Rat × Rat × Rat × Rat × Rat × Rat × Rat × Rat) :=
  let n_test := targets.length
  if n_test = 0 then none
  else if sets.length ≠ n_test then none
  else if ¬ ((List.range n_test).all
      (fun i => decide (targets.getD i 0 < (sets.getD i []).length))) then none
  else
    let cvg := ((List.range n_test).map
        (fun i => b2r ((sets.getD i []).getD (targets.getD i 0) false))).sum / n_test
    let sz := (sets.map rowSize).sum / sets.length
    let classes := npUnique targets
    let counts := classes.map (fun c => targets.count c)
    let c0 := counts.headD 0
    let P := (counts.drop 1).prod
    let loop := classes.enum.foldl (covStepPure sets targets c0 P)
      (some (List.replicate (c0 * P) (0 : Rat), List.replicate (c0 * P) (0 : Rat)))
    match loop with
    | none => none
    | some (cvgs, szs) =>
      some (cvg, sz, lmin cvgs, lmax cvgs, npMedian cvgs,
            lmin szs, lmax szs, npMedian szs)

/-- The per-class statistics of `coverage_size` as the specification words
them: min, max and median taken over the per-class coverage and size values
of the observed classes only.  Kept for comparison with the source
translation above; overall coverage and size are shared. -/
def coverage_size_spec (sets : List (List Bool)) (targets : List Nat) :
    Option (Rat × Rat × Rat × Rat × Rat × Rat × Rat × Rat) :=
  let n_test := targets.length
  if n_test = 0 then none
  else if sets.length ≠ n_test then none
  else if ¬ ((List.range n_test).all
      (fun i => decide (targets.getD i 0 < (sets.getD i []).length))) then none
  else
    let cvg := ((List.range n_test).map
        (fun i => b2r ((sets.getD i []).getD (targets.getD i 0) false))).sum / n_test
    let sz := (sets.map rowSize).sum / sets.length
    let classes := npUnique targets
    let cvgs := classes.map (clsCvgVal sets targets)
    let szs := classes.map (clsSzVal sets targets)
    some (cvg, sz, lmin cvgs, lmax cvgs, npMedian cvgs,
          lmin szs, lmax szs, npMedian szs)

/-- `pred.t()`: transpose of the `(batch × maxk)` index matrix into
`(maxk × batch)` (rectangular at every use site). -/
def tMat (m : List (List Nat)) (cols : Nat) : List (List Nat) :=
  (List.range cols).map (fun r => m.map (fun row => row.getD r 0))

/-- `accuracy(output, target, topk)` from `utils.py`: per row the indices of
the `maxk` largest scores (`output.topk(maxk, 1, True, True)`), transposed
and compared against the broadcast targets; for each `k` the number of hits
in the first `k` rows is scaled by `100 / batch_size` (the in-place `mul_`
on the fresh sum tensor). -/
def accuracy (output : List (List Rat)) (target : List Nat) (topk : List Nat) :
    List Rat :=
  let maxk := topk.foldl max 0
  let batch_size := target.length
  let pred := output.map (fun row => (argsortDesc row).take maxk)
  let predT := tMat pred maxk
  let correct := predT.map (fun prow => List.zipWith (fun c t => c == t) prow target)
  topk.map (fun k =>
    let correct_k : Rat := ((correct.take k).map
        (fun crow => ((crow.count true : Nat) : Rat))).sum
    correct_k * (100 / (batch_size : Rat)))

/-! ## Array store

To state that the metrics functions do not mutate their array arguments,
NumPy/torch arrays are given identities: a store maps references to array
values, fresh arrays are allocated at new references, and in-place updates
(`cvgs[i] = ...`, `correct_k.mul_(...)`) are writes to a reference.  Each
metrics function is re-run on this store, step by step, so that the claim
"the inputs are left unchanged" is about which references get written. -/

/-- An array value living in the store. -/
inductive NpVal where
  | rmat : List (List Rat) → NpVal
  | rvec : List Rat → NpVal
  | bmat : List (List Bool) → NpVal
  | nvec : List Nat → NpVal
  | nmat : List (List Nat) → NpVal

/-- Read an `NpVal` as a float matrix. -/
def NpVal.asRM : NpVal → List (List Rat)
  | .rmat m => m
  | _ => []

/-- Read an `NpVal` as a flat float array. -/
def NpVal.asRV : NpVal → List Rat
  | .rvec v => v
  | _ => []

/-- Read an `NpVal` as a boolean matrix. -/
def NpVal.asBM : NpVal → List (List Bool)
  | .bmat m => m
  | _ => []

/-- Read an `NpVal` as an integer vector. -/
def NpVal.asNV : NpVal → List Nat
  | .nvec v => v
  | _ => []

/-- Read an `NpVal` as an integer matrix. -/
def NpVal.asNM : NpVal → List (List Nat)
  | .nmat m => m
  | _ => []

/-- A heap of arrays: the next fresh reference and the contents. -/
structure NpStore where
  next : Nat
  mem : Nat → NpVal

/-- Allocate a fresh array, returning the new store and its reference. -/
def NpStore.alloc (s : NpStore) (v : NpVal) : NpStore × Nat :=
  (⟨s.next + 1, fun r => if r = s.next then v else s.mem r⟩, s.next)

/-- In-place update of the array at reference `r`. -/
def NpStore.write (s : NpStore) (r : Nat) (v : NpVal) : NpStore :=
  ⟨s.next, fun r' => if r' = r then v else s.mem r'⟩

/-- `s'` preserves `s`: no reference that existed in `s` was reallocated or
written. -/
def NpStore.Preserves (s s' : NpStore) : Prop :=
  s.next ≤ s'.next ∧ ∀ r < s.next, s'.mem r = s.mem r

/-- `sort_sum` on the store: reads the scores, allocates the three result
arrays (`argsort`, `np.sort` and `np.cumsum` each return fresh arrays). -/
def sort_sumS (s : NpStore) (scoresR : Nat) : NpStore × Nat × Nat × Nat :=
  let scores := (s.mem scoresR).asRM
  let (s1, iR) := s.alloc (.nmat (scores.map argsortDesc))
  let (s2, oR) := s1.alloc (.rmat (scores.map sortDesc))
  let (s3, cR) := s2.alloc (.rmat (((s2.mem oR).asRM).map npCumsum))
  (s3, iR, oR, cR)

/-- One `for k in topk` iteration of `accuracy` on the store:
`correct[:k].float().sum()` allocates the fresh scalar `correct_k`, and
`correct_k.mul_(100.0 / batch_size)` updates it in place. -/
def accuracyStep (corrR : Nat) (batch_size : Nat)
    (acc : NpStore × List Nat) (k : Nat) : NpStore × List Nat :=
  let (st, res) := acc
  let correct := (st.mem corrR).asBM
  let ck : Rat := ((correct.take k).map
      (fun crow => ((crow.count true : Nat) : Rat))).sum
  let (st1, ckR) := st.alloc (.rvec [ck])
  let st2 := st1.write ckR
    (.rvec [(((st1.mem ckR).asRV).getD 0 0) * (100 / (batch_size : Rat))])
  (st2, res ++ [ckR])

/-- `accuracy` on the store: `topk` allocates the index matrix, `eq`
allocates the boolean matrix (the transpose is a view), then the loop runs
`accuracyStep`; the returned references are the `res` list. -/
def accuracyS (s : NpStore) (outputR targetR : Nat) (topk : List Nat) :
    NpStore × List Nat :=
  let output := (s.mem outputR).asRM
  let target := (s.mem targetR).asNV
  let maxk := topk.foldl max 0
  let batch_size := target.length
  let (s1, predR) := s.alloc (.nmat (output.map
      (fun row => (argsortDesc row).take maxk)))
  let predT := tMat ((s1.mem predR).asNM) maxk
  let (s2, corrR) := s1.alloc (.bmat (predT.map
      (fun prow => List.zipWith (fun c t => c == t) prow target)))
  topk.foldl (accuracyStep corrR batch_size) (s2, [])

/-- One `for i, cls in enumerate(classes)` iteration of `coverage_size` on
the store: writes row `i` of the (bugged-shape) `cvgs`/`szs` arrays in
place, or fails with `IndexError` when `i ≥ counts[0]` (the `ok` flag
false means an exception has been raised). -/
def covStep (sets : List (List Bool)) (targets : List Nat)
    (cvR szR : Nat) (c0 P : Nat)
    (acc : NpStore × Bool) (p : Nat × Nat) : NpStore × Bool :=
  let (st, ok) := acc
  if ok then
    if p.1 < c0 then
      let st1 := st.write cvR (.rvec (setSlice ((st.mem cvR).asRV) (p.1 * P)
          (List.replicate P (clsCvgVal sets targets p.2))))
      let st2 := st1.write szR (.rvec (setSlice ((st1.mem szR).asRV) (p.1 * P)
          (List.replicate P (clsSzVal sets targets p.2))))
      (st2, true)
    else (st, false)
  else acc

/-- `coverage_size` on the store: the zero arrays `cvgs`, `szs` are
allocated (with the bugged shape `np.zeros(counts)`), the loop mutates them
in place, and the returned statistics are scalars; `none` in the second
component models a raised exception or NaN statistics, as in
`coverage_size`. -/
def coverage_sizeS (s : NpStore) (setsR targetsR : Nat) :
    NpStore × Option (Rat × Rat × Rat × Rat × Rat × Rat × Rat × Rat) :=
  let sets := (s.mem setsR).asBM
  let targets := (s.mem targetsR).asNV
  let n_test := targets.length
  if n_test = 0 then (s, none)
  else if sets.length ≠ n_test then (s, none)
  else if ¬ ((List.range n_test).all
      (fun i => decide (targets.getD i 0 < (sets.getD i []).length))) then (s, none)
  else
    let cvg := ((List.range n_test).map
        (fun i => b2r ((sets.getD i []).getD (targets.getD i 0) false))).sum / n_test
    let sz := (sets.map rowSize).sum / sets.length
    let classes := npUnique targets
    let counts := classes.map (fun c => targets.count c)
    let c0 := counts.headD 0
    let P := (counts.drop 1).prod
    let (s1, cvR) := s.alloc (.rvec (List.replicate (c0 * P) (0 : Rat)))
    let (s2, szR) := s1.alloc (.rvec (List.replicate (c0 * P) (0 : Rat)))
    let loop := classes.enum.foldl (covStep sets targets cvR szR c0 P) (s2, true)
    if loop.2 then
      let cvgs := ((loop.1.mem cvR).asRV)
      let szs := ((loop.1.mem szR).asRV)
      (loop.1, some (cvg, sz, lmin cvgs, lmax cvgs, npMedian cvgs,
                     lmin szs, lmax szs, npMedian szs))
    else (loop.1, none)

/-- A small concrete model for instantiating the runner theorems. -/
def demoModel (x : Nat) : List Rat := [(x : Rat)]

/-- A small concrete loader (3 examples in 2 batches) for instantiating the
runner theorems. -/
def demoLoader : Loader Nat := ⟨3, [([10, 20], [1, 2]), ([30], [0])]⟩

/-! # Theorems -/

theorem argRel_antisymm {row : List Rat} {a b : Nat}
    (hab : argRel row a b) (hba : argRel row b a) : a = b := by
  rcases hab with h1 | ⟨h1, h1'⟩ <;> rcases hba with h2 | ⟨h2, h2'⟩
  · exact absurd h2 (not_lt_of_lt h1)
  · exact absurd h1 (h2 ▸ lt_irrefl _)
  · exact absurd h2 (h1 ▸ lt_irrefl _)
  · exact Nat.le_antisymm h1' h2'

/-! ## C3: get_model error behaviour -/

/-- C3 (counterexample): at the unrecognized name "AlexNet" the code raises
`NotImplementedError`, which is not the `UnsupportedModelError` the claim
names. -/
theorem get_model_alexnet_not_unsupported_model_error :
    get_model "AlexNet" ≠ Except.error "UnsupportedModelError" ∧
    get_model "AlexNet" = Except.error "NotImplementedError" := by
  refine ⟨fun h => ?_, rfl⟩
  rw [show get_model "AlexNet" = Except.error "NotImplementedError" from rfl] at h
  have : ("NotImplementedError" : String) = "UnsupportedModelError" := by injection h
  exact absurd this (by decide)

/-- C3 (amended): model instantiation raises `NotImplementedError` — the
code's stand-in for an unsupported-model error — exactly for the names
outside the nine recognized architecture identifiers. -/
theorem get_model_raises_iff_unrecognized :
    ∀ modelname : String,
      get_model modelname = Except.error "NotImplementedError" ↔
        modelname ∉ recognizedModelNames := by
  intro modelname
  simp only [recognizedModelNames, List.mem_cons, List.not_mem_nil]
  unfold get_model
  split_ifs <;> simp_all

/-! ## C5 / C2: coverage_size -/

/-- C5: with two examples over two classes, each prediction set containing
exactly the true class, `coverage_size` raises `IndexError` (the class
counts are `[1, 1]`, so `np.zeros(counts)` has only one row and the loop
assignment `cvgs[1]` is out of bounds) instead of returning coverage 1.0
and average size 1.0. -/
theorem coverage_size_identity_sets_raises :
    coverage_size [[true, false], [false, true]] [0, 1] = none := rfl

/-- C2: with four all-true prediction sets and targets `[0, 0, 0, 1]`, both
per-class coverages and sizes are 1 and 2 respectively, but the code
returns min coverage 0 and min size 0: `np.zeros(counts)` has shape
`(3, 1)`, the loop fills only rows 0 and 1, and the statistics include the
leftover zero row.  The spec-worded statistics over the observed classes
only give min coverage 1 and min size 2. -/
theorem coverage_size_per_class_stats_diverge :
    coverage_size [[true, true], [true, true], [true, true], [true, true]] [0, 0, 0, 1]
        = some (1, 2, 0, 1, 1, 0, 2, 2) ∧
    coverage_size_spec [[true, true], [true, true], [true, true], [true, true]] [0, 0, 0, 1]
        = some (1, 2, 1, 1, 1, 2, 2, 2) := by
  constructor
  · norm_num [coverage_size, covStepPure, npUnique, npMedian, lmin, lmax, b2r, rowSize, clsCvgVal,
      clsSzVal, classIdx, setSlice, List.insertionSort, List.orderedInsert, List.dedup,
      List.enum, List.enumFrom, List.foldl, List.all, min_def, max_def,
      List.range_succ, List.filter_append, List.filter_cons, List.count_cons]
  · norm_num [coverage_size_spec, npUnique, npMedian, lmin, lmax, b2r, rowSize, clsCvgVal,
      clsSzVal, classIdx, setSlice, List.insertionSort, List.orderedInsert, List.dedup,
      List.foldl, min_def, max_def,
      List.range_succ, List.filter_append, List.filter_cons, List.count_cons]

/-! ## C10: AverageMeter invariant -/

/-- C10 (counterexample): a first `update` with count 0 divides by zero
(`ZeroDivisionError`) even though the total count of the sequence is
positive, so the claimed invariant cannot hold for every sequence with
positive total count. -/
theorem averageMeter_zero_count_update_raises :
    0 < ([((1 : Rat), 0), (2, 3)].map Prod.snd).sum ∧
    (AverageMeter.reset ⟨0, 0, 0, 0⟩).runUpdates [((1 : Rat), 0), (2, 3)] = none := by
  exact ⟨by decide, rfl⟩

theorem runUpdates_sound :
    ∀ (us : List (Rat × Nat)) (m : AverageMeter), 0 < m.count →
      ∃ m', m.runUpdates us = some m' ∧
        m'.sum = m.sum + (us.map (fun p => p.1 * (p.2 : Rat))).sum ∧
        m'.count = m.count + (us.map Prod.snd).sum ∧
        (us = [] → m' = m) ∧
        (us ≠ [] →
          m'.avg = m'.sum / m'.count ∧ (us.map Prod.fst).getLast? = some m'.val) := by
  intro us
  induction us with
  | nil =>
    intro m hm
    exact ⟨m, rfl, by simp, by simp, fun _ => rfl, fun h => absurd rfl h⟩
  | cons p t ih =>
    intro m hm
    obtain ⟨v, n⟩ := p
    have hcount : ¬ (m.count + n = 0) := by omega
    set m1 : AverageMeter :=
      { val := v, sum := m.sum + v * n, count := m.count + n,
        avg := (m.sum + v * n) / (m.count + n) } with hm1
    have hupd : m.update v n = some m1 := by
      simp [AverageMeter.update, hcount, hm1]
    have hm1pos : 0 < m1.count := by simp [hm1]; omega
    obtain ⟨m', hrun, hsum, hcnt, hnil, hne⟩ := ih m1 hm1pos
    refine ⟨m', ?_, ?_, ?_, ?_, ?_⟩
    · simp [AverageMeter.runUpdates, hupd, hrun]
    · simp [hsum, hm1]; ring
    · simp [hcnt, hm1]; omega
    · intro h; exact absurd h (by simp)
    · intro _
      rcases List.eq_nil_or_concat t with ht | ⟨t0, ⟨v', n'⟩, ht⟩
      · subst ht
        have := hnil rfl
        subst this
        refine ⟨by simp [hm1], by simp [hm1]⟩
      · have htne : t ≠ [] := by simp [ht]
        obtain ⟨havg, hlast⟩ := hne htne
        refine ⟨havg, ?_⟩
        obtain ⟨x, t', rfl⟩ := List.exists_cons_of_ne_nil htne
        simpa only [List.map_cons, List.getLast?_cons_cons] using hlast

/-- C10 (amended): after `reset()` all four fields are zero, and for every
nonempty sequence of `update(val_i, n_i)` calls whose first count is
positive (so no intermediate division by zero occurs; the total count is
then positive as well), the final state satisfies `sum = Σ val_i·n_i`,
`count = Σ n_i`, `avg = sum / count`, and `val = last val_i`. -/
theorem averageMeter_reset_update_invariant :
    ∀ (m0 : AverageMeter) (us : List (Rat × Nat)) (v : Rat) (n : Nat) (t : List (Rat × Nat)),
      us = (v, n) :: t → 0 < n →
      (m0.reset.val = 0 ∧ m0.reset.avg = 0 ∧ m0.reset.sum = 0 ∧ m0.reset.count = 0) ∧
      ∃ m', m0.reset.runUpdates us = some m' ∧
        m'.sum = (us.map (fun p => p.1 * (p.2 : Rat))).sum ∧
        m'.count = (us.map Prod.snd).sum ∧
        m'.avg = m'.sum / m'.count ∧
        (us.map Prod.fst).getLast? = some m'.val := by
  intro m0 us v n t hus hn
  subst hus
  refine ⟨⟨rfl, rfl, rfl, rfl⟩, ?_⟩
  have hn' : n ≠ 0 := by omega
  set m1 : AverageMeter :=
    { val := v, sum := v * n, count := n, avg := (v * n) / (n : Rat) }
    with hm1
  have hupd : (m0.reset).update v n = some m1 := by
    simp [AverageMeter.update, AverageMeter.reset, hn', hm1]
  have hm1pos : 0 < m1.count := by simp [hm1]; omega
  obtain ⟨m', hrun, hsum, hcnt, hnil, hne⟩ := runUpdates_sound t m1 hm1pos
  refine ⟨m', ?_, ?_, ?_, ?_, ?_⟩
  · simp [AverageMeter.runUpdates, hupd, hrun]
  · simp [hsum, hm1]
  · simp [hcnt, hm1]
  · rcases List.eq_nil_or_concat t with ht | ⟨t0, q, ht⟩
    · subst ht
      have := hnil rfl
      subst this
      simp [hm1]
    · exact (hne (by simp [ht])).1
  · rcases List.eq_nil_or_concat t with ht | ⟨t0, q, ht⟩
    · subst ht
      have := hnil rfl
      subst this
      simp [hm1]
    · have htne : t ≠ [] := by simp [ht]
      obtain ⟨x, t', rfl⟩ := List.exists_cons_of_ne_nil htne
      simpa only [List.map_cons, List.getLast?_cons_cons] using (hne htne).2

/-- C10 (witness): the amended invariant at the concrete sequence
`[(2, 1), (4, 3)]`. -/
theorem averageMeter_reset_update_invariant_witness :
    ([((2 : Rat), 1), (4, 3)] = ((2 : Rat), 1) :: [((4 : Rat), 3)] ∧ 0 < 1) ∧
    ((AverageMeter.reset ⟨0, 0, 0, 0⟩).val = 0 ∧ (AverageMeter.reset ⟨0, 0, 0, 0⟩).avg = 0 ∧
      (AverageMeter.reset ⟨0, 0, 0, 0⟩).sum = 0 ∧ (AverageMeter.reset ⟨0, 0, 0, 0⟩).count = 0) ∧
    ∃ m', (AverageMeter.reset ⟨0, 0, 0, 0⟩).runUpdates [((2 : Rat), 1), (4, 3)] = some m' ∧
      m'.sum = ([((2 : Rat), 1), (4, 3)].map (fun p => p.1 * (p.2 : Rat))).sum ∧
      m'.count = ([((2 : Rat), 1), (4, 3)].map Prod.snd).sum ∧
      m'.avg = m'.sum / m'.count ∧
      ([((2 : Rat), 1), (4, 3)].map Prod.fst).getLast? = some m'.val :=
  ⟨⟨rfl, by decide⟩,
    averageMeter_reset_update_invariant ⟨0, 0, 0, 0⟩ _ 2 1 [((4 : Rat), 3)] rfl (by decide)⟩

/-! ## C4 / C8: logit cache -/

/-- C4 (counterexample): when the cache file exists but is corrupt,
`get_logits_dataset` raises `UnpicklingError` from `pickle.load` — it does
not fall through to recomputation, because the only guard is
`os.path.exists`. -/
theorem get_logits_dataset_corrupt_cache_raises :
    get_logits_dataset
      (fun f => if f = cacheFname "/cache/" "Imagenet" "ResNet18"
        then some PickleFile.corrupt else none)
      "ResNet18" "Imagenet" "/data" "/cache/" ([], [])
      = Except.error "UnpicklingError" := rfl

/-- C4 (amended): a missing cache file falls through to full recomputation
(the inference result is stored and returned), but a corrupt existing file
raises `UnpicklingError` instead of being treated as a cache miss. -/
theorem get_logits_dataset_miss_recomputes_corrupt_raises :
    ∀ (fs1 fs2 : String → Option PickleFile) (mn dn dp cache : String)
      (d : LogitDataset) (M : TorchvisionModel),
      get_model mn = Except.ok M →
      fs1 (cacheFname cache dn mn) = none →
      fs2 (cacheFname cache dn mn) = some PickleFile.corrupt →
      get_logits_dataset fs1 mn dn dp cache d
        = Except.ok ⟨d, fun f => if f = cacheFname cache dn mn
            then some (PickleFile.valid d) else fs1 f, true⟩ ∧
      get_logits_dataset fs2 mn dn dp cache d = Except.error "UnpicklingError" := by
  intro fs1 fs2 mn dn dp cache d M hM h1 h2
  constructor
  · simp [get_logits_dataset, h1, hM]
  · simp [get_logits_dataset, h2]

/-- C4 (witness): the amended statement at a concrete empty and a concrete
corrupt file system. -/
theorem get_logits_dataset_miss_recomputes_corrupt_raises_witness :
    (get_model "ResNet18" = Except.ok TorchvisionModel.resnet18 ∧
      (fun _ : String => (none : Option PickleFile)) (cacheFname "/c/" "D" "ResNet18") = none ∧
      (fun _ : String => some PickleFile.corrupt) (cacheFname "/c/" "D" "ResNet18")
        = some PickleFile.corrupt) ∧
    get_logits_dataset (fun _ => none) "ResNet18" "D" "/p" "/c/" ([], [])
      = Except.ok ⟨([], []), fun f => if f = cacheFname "/c/" "D" "ResNet18"
          then some (PickleFile.valid ([], [])) else none, true⟩ ∧
    get_logits_dataset (fun _ => some PickleFile.corrupt) "ResNet18" "D" "/p" "/c/" ([], [])
      = Except.error "UnpicklingError" :=
  ⟨⟨rfl, rfl, rfl⟩,
    get_logits_dataset_miss_recomputes_corrupt_raises
      (fun _ => none) (fun _ => some PickleFile.corrupt)
      "ResNet18" "D" "/p" "/c/" ([], []) TorchvisionModel.resnet18 rfl rfl rfl⟩

/-- C8: starting from a file system without the cache entry, the first call
computes, writes once and returns the result; every later call with the
same key returns exactly the stored dataset and the unchanged file system,
with the inference/write flag false — whatever a recomputation `d'` would
have produced. -/
theorem get_logits_dataset_write_once_idempotent :
    ∀ (fs : String → Option PickleFile) (mn dn dp cache : String)
      (d : LogitDataset) (M : TorchvisionModel),
      get_model mn = Except.ok M →
      fs (cacheFname cache dn mn) = none →
      ∃ fs', get_logits_dataset fs mn dn dp cache d = Except.ok ⟨d, fs', true⟩ ∧
        ∀ d', get_logits_dataset fs' mn dn dp cache d' = Except.ok ⟨d, fs', false⟩ := by
  intro fs mn dn dp cache d M hM h
  refine ⟨fun f => if f = cacheFname cache dn mn then some (PickleFile.valid d) else fs f,
    ?_, ?_⟩
  · simp [get_logits_dataset, h, hM]
  · intro d'
    simp [get_logits_dataset]

/-- C8 (witness): the write-once/idempotence statement at a concrete empty
file system. -/
theorem get_logits_dataset_write_once_idempotent_witness :
    (get_model "VGG16" = Except.ok TorchvisionModel.vgg16 ∧
      (fun _ : String => (none : Option PickleFile)) (cacheFname "/c/" "D" "VGG16") = none) ∧
    ∃ fs', get_logits_dataset (fun _ => none) "VGG16" "D" "/p" "/c/" ([[1]], [5])
        = Except.ok ⟨([[1]], [5]), fs', true⟩ ∧
      ∀ d', get_logits_dataset fs' "VGG16" "D" "/p" "/c/" d'
        = Except.ok ⟨([[1]], [5]), fs', false⟩ :=
  ⟨⟨rfl, rfl⟩,
    get_logits_dataset_write_once_idempotent (fun _ => none)
      "VGG16" "D" "/p" "/c/" ([[1]], [5]) TorchvisionModel.vgg16 rfl rfl⟩

/-! ## C1: sort_sum -/

theorem argsortDesc_perm (row : List Rat) :
    List.Perm (argsortDesc row) (List.range row.length) :=
  (List.reverse_perm _).trans (List.perm_insertionSort _ _)

theorem sortDesc_perm (row : List Rat) : List.Perm (sortDesc row) row :=
  (List.reverse_perm _).trans (List.perm_insertionSort _ _)

theorem sortDesc_pairwise (row : List Rat) : (sortDesc row).Pairwise (· ≥ ·) := by
  rw [sortDesc, List.pairwise_reverse]
  exact List.sorted_insertionSort (· ≤ ·) row

theorem cumsumFrom_getLast? :
    ∀ (l : List Rat), l ≠ [] → ∀ acc : Rat,
      (cumsumFrom acc l).getLast? = some (acc + l.sum) := by
  intro l
  induction l with
  | nil => intro h; exact absurd rfl h
  | cons x t ih =>
    intro _ acc
    cases t with
    | nil => simp [cumsumFrom]
    | cons y t' =>
      have hexp : cumsumFrom acc (x :: y :: t')
          = (acc + x) :: (acc + x + y) :: cumsumFrom (acc + x + y) t' := rfl
      rw [hexp, List.getLast?_cons_cons,
        ← show cumsumFrom (acc + x) (y :: t') = (acc + x + y) :: cumsumFrom (acc + x + y) t'
          from rfl,
        ih (by simp) (acc + x)]
      simp [add_assoc]

theorem cumsumFrom_chain' :
    ∀ (l : List Rat), (∀ x ∈ l, 0 ≤ x) → ∀ acc : Rat,
      List.Chain' (· ≤ ·) (cumsumFrom acc l) := by
  intro l
  induction l with
  | nil => intro _ acc; exact List.chain'_nil
  | cons x t ih =>
    intro h acc
    cases t with
    | nil => simp [cumsumFrom]
    | cons y t' =>
      have hexp : cumsumFrom acc (x :: y :: t')
          = (acc + x) :: (acc + x + y) :: cumsumFrom (acc + x + y) t' := rfl
      rw [hexp, List.chain'_cons]
      constructor
      · have hy : (0 : Rat) ≤ y := h y (by simp)
        linarith
      · have h' : ∀ z ∈ y :: t', (0 : Rat) ≤ z :=
          fun z hz => h z (List.mem_cons_of_mem _ hz)
        have := ih h' (acc + x)
        rwa [show cumsumFrom (acc + x) (y :: t')
            = (acc + x + y) :: cumsumFrom (acc + x + y) t' from rfl] at this

theorem getD_map_of_lt {α β : Type} (f : α → β) (l : List α) (r : Nat)
    (hr : r < l.length) (d : β) (d' : α) :
    (l.map f).getD r d = f (l.getD r d') := by
  rw [List.getD_eq_getElem?_getD, List.getElem?_map, List.getD_eq_getElem?_getD,
    List.getElem?_eq_getElem hr]
  simp

/-- C1 (counterexample): on the scores matrix `[[-1, -2]]` the cumulative
sum row is `[-1, -3]`, which is not non-decreasing — the monotonicity part
of the claim fails for matrices with negative scores. -/
theorem sort_sum_cumsum_not_monotone :
    ¬ List.Chain' (· ≤ ·) ((sort_sum [[(-1 : Rat), -2]]).2.2.getD 0 []) := by
  have hrow : (sort_sum [[(-1 : Rat), -2]]).2.2.getD 0 [] = [(-1 : Rat), -3] := by
    norm_num [sort_sum, sortDesc, sortAsc, npCumsum, cumsumFrom, List.insertionSort,
      List.orderedInsert]
  rw [hrow]
  norm_num [List.chain'_cons]

/-- C1 (amended): for every scores matrix, each row of `I` is a permutation
of the column indices of that row, each row of `ordered` is non-increasing,
and each row of the cumulative sums ends in the row total; the cumulative
sums are non-decreasing provided the row's scores are non-negative (for
general scores this part fails, see the counterexample). -/
theorem sort_sum_row_properties :
    ∀ (scores : List (List Rat)) (r : Nat), r < scores.length →
      List.Perm ((sort_sum scores).1.getD r []) (List.range ((scores.getD r []).length)) ∧
      List.Chain' (· ≥ ·) ((sort_sum scores).2.1.getD r []) ∧
      (scores.getD r [] ≠ [] →
        ((sort_sum scores).2.2.getD r []).getLast? = some (scores.getD r []).sum) ∧
      ((∀ x ∈ scores.getD r [], 0 ≤ x) →
        List.Chain' (· ≤ ·) ((sort_sum scores).2.2.getD r [])) := by
  intro scores r hr
  have h1 : (sort_sum scores).1 = scores.map argsortDesc := rfl
  have h2 : (sort_sum scores).2.1 = scores.map sortDesc := rfl
  have h3 : (sort_sum scores).2.2 = (scores.map sortDesc).map npCumsum := rfl
  have hr2 : r < (scores.map sortDesc).length := by simpa using hr
  rw [h1, h2, h3, getD_map_of_lt argsortDesc scores r hr [] [],
    getD_map_of_lt npCumsum (scores.map sortDesc) r hr2 [] [],
    getD_map_of_lt sortDesc scores r hr [] []]
  refine ⟨argsortDesc_perm _, List.chain'_iff_pairwise.mpr (sortDesc_pairwise _), ?_, ?_⟩
  · intro hne
    have hne' : sortDesc (scores.getD r []) ≠ [] := by
      intro h
      have := (sortDesc_perm (scores.getD r [])).length_eq
      rw [h] at this
      exact hne (List.eq_nil_of_length_eq_zero this.symm)
    rw [npCumsum, cumsumFrom_getLast? _ hne' 0, zero_add,
      (sortDesc_perm (scores.getD r [])).sum_eq]
  · intro hnonneg
    exact cumsumFrom_chain' _
      (fun x hx => hnonneg x ((sortDesc_perm (scores.getD r [])).mem_iff.mp hx)) 0

/-- C1 (witness): the amended row properties at the concrete matrix
`[[1, 2]]`, row 0. -/
theorem sort_sum_row_properties_witness :
    0 < 1 ∧
    (List.Perm ((sort_sum [[(1 : Rat), 2]]).1.getD 0 [])
        (List.range (([[(1 : Rat), 2]].getD 0 []).length)) ∧
      List.Chain' (· ≥ ·) ((sort_sum [[(1 : Rat), 2]]).2.1.getD 0 []) ∧
      ([[(1 : Rat), 2]].getD 0 [] ≠ [] →
        ((sort_sum [[(1 : Rat), 2]]).2.2.getD 0 []).getLast?
          = some ([[(1 : Rat), 2]].getD 0 []).sum) ∧
      ((∀ x ∈ [[(1 : Rat), 2]].getD 0 [], 0 ≤ x) →
        List.Chain' (· ≤ ·) ((sort_sum [[(1 : Rat), 2]]).2.2.getD 0 []))) :=
  ⟨by decide, sort_sum_row_properties [[(1 : Rat), 2]] 0 (by decide)⟩

/-! ## C7: inference runner -/

theorem setSlice_append {β : Type} (a b c : List β) :
    setSlice (a ++ c) a.length b = a ++ b ++ c.drop b.length := by
  simp [setSlice, List.take_left, List.drop_append, List.append_assoc]

theorem runner_fold {α : Type} (model : α → List Rat) :
    ∀ (bs : List (List α × List Nat)) (done : List (List Rat)) (doneL : List Rat) (pad : Nat),
      (∀ b ∈ bs, b.2.length = b.1.length) →
      (bs.map (fun b => b.1.length)).sum ≤ pad →
      doneL.length = done.length →
      bs.foldl (runnerStep model)
        (done ++ List.replicate pad (List.replicate 1000 (0 : Rat)),
         doneL ++ List.replicate pad (0 : Rat), done.length)
      = (done ++ bs.flatMap (fun b => b.1.map model)
            ++ List.replicate (pad - (bs.map (fun b => b.1.length)).sum)
              (List.replicate 1000 (0 : Rat)),
         doneL ++ bs.flatMap (fun b => b.2.map (fun t : Nat => (t : Rat)))
            ++ List.replicate (pad - (bs.map (fun b => b.1.length)).sum) (0 : Rat),
         done.length + (bs.map (fun b => b.1.length)).sum) := by
  intro bs
  induction bs with
  | nil => intro done doneL pad _ _ _; simp
  | cons b bs ih =>
    intro done doneL pad hlen hsum hdl
    have hb : b.2.length = b.1.length := hlen b (by simp)
    have hsum' : (bs.map (fun b => b.1.length)).sum ≤ pad - b.1.length := by
      simp at hsum; omega
    have e1 : setSlice (done ++ List.replicate pad (List.replicate 1000 (0 : Rat)))
        done.length (b.1.map model)
        = (done ++ b.1.map model)
            ++ List.replicate (pad - b.1.length) (List.replicate 1000 (0 : Rat)) := by
      rw [setSlice_append, List.drop_replicate]
      simp [List.append_assoc]
    have e2 : setSlice (doneL ++ List.replicate pad (0 : Rat))
        done.length (b.2.map (fun t : Nat => (t : Rat)))
        = (doneL ++ b.2.map (fun t : Nat => (t : Rat)))
            ++ List.replicate (pad - b.1.length) (0 : Rat) := by
      rw [← hdl, setSlice_append, List.drop_replicate]
      simp [List.append_assoc, hb]
    rw [List.foldl_cons]
    rw [show runnerStep model
        (done ++ List.replicate pad (List.replicate 1000 (0 : Rat)),
         doneL ++ List.replicate pad (0 : Rat), done.length) b
      = ((done ++ b.1.map model)
            ++ List.replicate (pad - b.1.length) (List.replicate 1000 (0 : Rat)),
         (doneL ++ b.2.map (fun t : Nat => (t : Rat)))
            ++ List.replicate (pad - b.1.length) (0 : Rat),
         (done ++ b.1.map model).length) from by
      simp only [runnerStep]
      rw [e1, e2]
      simp]
    rw [ih (done ++ b.1.map model) (doneL ++ b.2.map (fun t : Nat => (t : Rat)))
      (pad - b.1.length) (fun b' hb' => hlen b' (List.mem_cons_of_mem _ hb')) hsum'
      (by simp [hdl, hb])]
    simp [List.append_assoc, Nat.sub_sub, add_assoc, hb]

/-- C7: when the loader's batches enumerate the dataset (one target per
input, total batch sizes equal to the dataset length), the runner
terminates with exactly one logits row per example — the model output rows
in dataset order — and one label per example in dataset order, and after
each batch the write cursor equals the number of examples processed so
far. -/
theorem get_logits_targets_table :
    ∀ {α : Type} (model : α → List Rat) (loader : Loader α),
      (∀ b ∈ loader.batches, b.2.length = b.1.length) →
      loader.datasetLen = (loader.batches.map (fun b => b.1.length)).sum →
      (get_logits_targets model loader).1
          = (loader.batches.flatMap (fun b => b.1)).map model ∧
      (get_logits_targets model loader).2
          = (loader.batches.flatMap (fun b => b.2)).map (fun t : Nat => (t : Int)) ∧
      (get_logits_targets model loader).1.length = loader.datasetLen ∧
      (get_logits_targets model loader).2.length = loader.datasetLen ∧
      (∀ k, k ≤ loader.batches.length →
        (runnerState model loader k).2.2
          = ((loader.batches.take k).map (fun b => b.1.length)).sum) := by
  intro α model loader hlen hN
  have hfold := runner_fold model loader.batches [] [] loader.datasetLen hlen
    (by rw [hN]) rfl
  have key : runnerState model loader loader.batches.length
      = (loader.batches.flatMap (fun b => b.1.map model),
         loader.batches.flatMap (fun b => b.2.map (fun t : Nat => (t : Rat))),
         (loader.batches.map (fun b => b.1.length)).sum) := by
    rw [runnerState, List.take_length]
    rw [show ((List.replicate loader.datasetLen (List.replicate 1000 (0 : Rat)),
        List.replicate loader.datasetLen (0 : Rat), 0)
          : List (List Rat) × List Rat × Nat)
      = (([] : List (List Rat)) ++ List.replicate loader.datasetLen (List.replicate 1000 (0 : Rat)),
         ([] : List Rat) ++ List.replicate loader.datasetLen (0 : Rat),
         ([] : List (List Rat)).length) from by simp]
    rw [hfold, hN]
    simp
  refine ⟨?_, ?_, ?_, ?_, ?_⟩
  · rw [get_logits_targets, key]
    simp [List.map_flatMap]
  · rw [get_logits_targets, key]
    simp only []
    rw [List.map_flatMap, List.map_flatMap]
    refine List.flatMap_congr ?_
    intro b _
    simp [List.map_map, Function.comp]
  · rw [get_logits_targets, key]
    simp only [List.length_flatMap, hN]
    exact congrArg List.sum (List.map_congr_left fun b _ => by simp)
  · rw [get_logits_targets, key]
    simp only [List.length_map, List.length_flatMap, hN]
    exact congrArg List.sum (List.map_congr_left fun b hb => by simp [hlen b hb])
  · intro k hk
    have hfoldk := runner_fold model (loader.batches.take k) [] [] loader.datasetLen
      (fun b hb => hlen b (List.take_subset _ _ hb))
      (by
        rw [hN, List.map_take]
        exact List.Sublist.sum_le_sum (List.take_sublist _ _) (fun _ _ => Nat.zero_le _))
      rfl
    rw [runnerState]
    rw [show ((List.replicate loader.datasetLen (List.replicate 1000 (0 : Rat)),
        List.replicate loader.datasetLen (0 : Rat), 0)
          : List (List Rat) × List Rat × Nat)
      = (([] : List (List Rat)) ++ List.replicate loader.datasetLen (List.replicate 1000 (0 : Rat)),
         ([] : List Rat) ++ List.replicate loader.datasetLen (0 : Rat),
         ([] : List (List Rat)).length) from by simp]
    rw [hfoldk]
    simp

/-- C7 (witness): the runner contract at a concrete 3-example loader split
into two batches. -/
theorem get_logits_targets_table_witness :
    ((∀ b ∈ demoLoader.batches, b.2.length = b.1.length) ∧
      demoLoader.datasetLen = (demoLoader.batches.map (fun b => b.1.length)).sum) ∧
    ((get_logits_targets demoModel demoLoader).1
        = (demoLoader.batches.flatMap (fun b => b.1)).map demoModel ∧
      (get_logits_targets demoModel demoLoader).2
        = (demoLoader.batches.flatMap (fun b => b.2)).map (fun t : Nat => (t : Int)) ∧
      (get_logits_targets demoModel demoLoader).1.length = demoLoader.datasetLen ∧
      (get_logits_targets demoModel demoLoader).2.length = demoLoader.datasetLen ∧
      (∀ k, k ≤ demoLoader.batches.length →
        (runnerState demoModel demoLoader k).2.2
          = ((demoLoader.batches.take k).map (fun b => b.1.length)).sum)) :=
  ⟨⟨by decide, by decide⟩,
    get_logits_targets_table demoModel demoLoader (by decide) (by decide)⟩

/-! ## C6: accuracy -/

theorem foldl_max_le :
    ∀ (l : List Nat) (a c : Nat), a ≤ c → (∀ x ∈ l, x ≤ c) → l.foldl max a ≤ c := by
  intro l
  induction l with
  | nil => intro a c ha _; simpa using ha
  | cons x t ih =>
    intro a c ha hl
    rw [List.foldl_cons]
    exact ih _ c (max_le ha (hl x (by simp))) (fun y hy => hl y (List.mem_cons_of_mem _ hy))

theorem le_foldl_max_of_mem :
    ∀ (l : List Nat) (a k : Nat), k ∈ l → k ≤ l.foldl max a := by
  intro l
  induction l with
  | nil => intro a k hk; exact absurd hk (List.not_mem_nil k)
  | cons x t ih =>
    intro a k hk
    rw [List.foldl_cons]
    rcases List.mem_cons.mp hk with rfl | hk
    · have hax : k ≤ max a k := le_max_right a k
      have : max a k ≤ t.foldl max (max a k) := by
        clear ih hk hax
        induction t generalizing a k with
        | nil => simp
        | cons y t' ih' => rw [List.foldl_cons]; exact le_trans (le_max_left _ _) (ih' _ _)
      exact le_trans hax this
    · exact ih _ k hk

theorem getD_mem_of_lt {α : Type} (l : List α) (n : Nat) (d : α) (h : n < l.length) :
    l.getD n d ∈ l := by
  rw [List.getD_eq_getElem?_getD, List.getElem?_eq_getElem h]
  exact List.getElem_mem h

theorem getD_nodup_ne {l : List Rat} (h : l.Nodup) {i j : Nat}
    (hi : i < l.length) (hj : j < l.length) (hne : i ≠ j) : l.getD i 0 ≠ l.getD j 0 := by
  rw [List.getD_eq_getElem?_getD, List.getD_eq_getElem?_getD,
    List.getElem?_eq_getElem hi, List.getElem?_eq_getElem hj]
  simp only [Option.getD_some]
  exact fun hh => hne (h.getElem_inj_iff.mp hh)

theorem sum_map_range {M : Type} [AddCommMonoid M] (n : Nat) (f : Nat → M) :
    ((List.range n).map f).sum = ∑ i ∈ Finset.range n, f i := by
  rw [Finset.sum, Finset.range_val, Multiset.range, Multiset.map_coe, Multiset.sum_coe]

theorem countP_eq_sum_map (p : Nat → Bool) :
    ∀ l : List Nat, l.countP p = (l.map (fun x => if p x then 1 else 0)).sum := by
  intro l
  induction l with
  | nil => simp
  | cons x t ih =>
    rw [List.countP_cons, List.map_cons, List.sum_cons, ih]
    by_cases h : p x <;> simp [h, Nat.add_comm]

theorem sum_countP_swap (p : Nat → Nat → Bool) (k n : Nat) :
    ((List.range k).map (fun r => (List.range n).countP (p r))).sum
      = ((List.range n).map (fun i => (List.range k).countP (fun r => p r i))).sum := by
  have h1 : ∀ r, (List.range n).countP (p r)
      = ∑ i ∈ Finset.range n, if p r i then 1 else 0 := by
    intro r; rw [countP_eq_sum_map, sum_map_range]
  have h2 : ∀ i, (List.range k).countP (fun r => p r i)
      = ∑ r ∈ Finset.range k, if p r i then 1 else 0 := by
    intro i; rw [countP_eq_sum_map, sum_map_range]
  rw [sum_map_range, sum_map_range]
  simp only [h1, h2]
  exact Finset.sum_comm

theorem countP_range_getD {α : Type} (p : α → Bool) (d : α) :
    ∀ l : List α, (List.range l.length).countP (fun i => p (l.getD i d)) = l.countP p := by
  intro l
  induction l with
  | nil => simp
  | cons x t ih =>
    rw [List.length_cons, List.range_succ_eq_map, List.countP_cons, List.countP_map]
    have : ((List.range t.length).countP ((fun i => p ((x :: t).getD i d)) ∘ Nat.succ))
        = (List.range t.length).countP (fun i => p (t.getD i d)) := by
      apply List.countP_congr
      intro i _
      rfl
    rw [this, ih, List.countP_cons]
    rfl

theorem count_true_zipWith {α β : Type} (f : α → β → Bool) (da : α) (db : β) :
    ∀ (a : List α) (b : List β), a.length = b.length →
      (List.zipWith f a b).count true
        = (List.range a.length).countP (fun i => f (a.getD i da) (b.getD i db)) := by
  intro a
  induction a with
  | nil => intro b _; simp
  | cons x a' ih =>
    intro b h
    cases b with
    | nil => simp at h
    | cons y b' =>
      have h' : a'.length = b'.length := by simpa using h
      rw [List.zipWith_cons_cons, List.count_cons, ih b' h',
        List.length_cons, List.range_succ_eq_map, List.countP_cons, List.countP_map]
      have : ((List.range a'.length).countP
            ((fun i => f ((x :: a').getD i da) ((y :: b').getD i db)) ∘ Nat.succ))
          = (List.range a'.length).countP (fun i => f (a'.getD i da) (b'.getD i db)) := by
        apply List.countP_congr
        intro i _
        rfl
      rw [this]
      simp

theorem count_take_nodup {s : List Nat} (hs : s.Nodup) (k j : Nat) :
    (s.take k).count j = if j ∈ s.take k then 1 else 0 := by
  by_cases h : j ∈ s.take k
  · rw [if_pos h]
    exact List.count_eq_one_of_mem (hs.sublist (List.take_sublist _ _)) h
  · rw [if_neg h]
    exact List.count_eq_zero_of_not_mem h

theorem countP_range_take_count (l : List Nat) (k : Nat) (hk : k ≤ l.length) (j : Nat) :
    (List.range k).countP (fun r => l.getD r 0 == j) = (l.take k).count j := by
  have hlen : (l.take k).length = k := by simp [Nat.min_eq_left hk]
  have h1 : (l.take k).count j = (l.take k).countP (· == j) := rfl
  have h2 := countP_range_getD (fun x => x == j) 0 (l.take k)
  rw [hlen] at h2
  rw [h1, ← h2]
  apply List.countP_congr
  intro i hi
  have hik : i < k := List.mem_range.mp hi
  have : (l.take k).getD i 0 = l.getD i 0 := by
    rw [List.getD_eq_getElem?_getD, List.getD_eq_getElem?_getD, List.getElem?_take]
    simp [hik]
  rw [this]

theorem mem_take_iff_countP_lt (r : Nat → Nat → Prop) [DecidableRel r] :
    ∀ s : List Nat, s.Pairwise r → s.Nodup →
      (∀ x ∈ s, ∀ y ∈ s, r x y → r y x → x = y) →
      ∀ j, j ∈ s → ∀ k : Nat,
        (j ∈ s.take k ↔ s.countP (fun x => decide (r x j ∧ x ≠ j)) < k) := by
  intro s
  induction s with
  | nil => intro _ _ _ j hj; exact absurd hj (List.not_mem_nil j)
  | cons a s' ih =>
    intro hp hnd hanti j hj k
    have ha : ∀ x ∈ s', r a x := fun x hx => List.rel_of_pairwise_cons hp hx
    have hp' : s'.Pairwise r := (List.pairwise_cons.mp hp).2
    obtain ⟨hna, hnd'⟩ := List.nodup_cons.mp hnd
    have hanti' : ∀ x ∈ s', ∀ y ∈ s', r x y → r y x → x = y :=
      fun x hx y hy => hanti x (List.mem_cons_of_mem _ hx) y (List.mem_cons_of_mem _ hy)
    rcases List.mem_cons.mp hj with rfl | hjs'
    · have hz : s'.countP (fun x => decide (r x j ∧ x ≠ j)) = 0 := by
        rw [List.countP_eq_zero]
        intro x hx hpx
        obtain ⟨hrx, hxj⟩ := of_decide_eq_true hpx
        exact hna ((hanti x (List.mem_cons_of_mem _ hx) j hj hrx (ha x hx)) ▸ hx)
      have hcnt : (j :: s').countP (fun x => decide (r x j ∧ x ≠ j)) = 0 := by
        rw [List.countP_cons, hz]
        simp
      rw [hcnt]
      cases k with
      | zero => simp
      | succ k' => simp [List.take_succ_cons]
    · have hja : j ≠ a := fun h => hna (h ▸ hjs')
      have hpa : (decide (r a j ∧ a ≠ j)) = true :=
        decide_eq_true ⟨ha j hjs', hja.symm⟩
      have hcnt : (a :: s').countP (fun x => decide (r x j ∧ x ≠ j))
          = s'.countP (fun x => decide (r x j ∧ x ≠ j)) + 1 := by
        rw [List.countP_cons, hpa]
        simp
      rw [hcnt]
      cases k with
      | zero => simp
      | succ k' =>
        rw [List.take_succ_cons, List.mem_cons, Nat.add_lt_add_iff_right]
        rw [← ih hp' hnd' hanti' j hjs' k']
        simp [hja]

theorem length_argsortDesc (row : List Rat) : (argsortDesc row).length = row.length := by
  simp [argsortDesc, argsortAsc, List.length_reverse, List.length_insertionSort,
    List.length_range]

theorem mem_argsortDesc_take_iff (row : List Rat) (hnd : row.Nodup) (j k : Nat)
    (hj : j < row.length) :
    (j ∈ (argsortDesc row).take k ↔
      (row.filter (fun x => decide (row.getD j 0 < x))).length < k) := by
  have hpair : (argsortDesc row).Pairwise (fun x y => argRel row y x) := by
    rw [argsortDesc, List.pairwise_reverse]
    exact List.sorted_insertionSort (argRel row) (List.range row.length)
  have hperm := argsortDesc_perm row
  have hndup : (argsortDesc row).Nodup := hperm.nodup_iff.mpr (List.nodup_range _)
  have hanti : ∀ x ∈ argsortDesc row, ∀ y ∈ argsortDesc row,
      argRel row y x → argRel row x y → x = y :=
    fun x _ y _ hxy hyx => (argRel_antisymm hxy hyx).symm
  have hmem : j ∈ argsortDesc row := hperm.mem_iff.mpr (List.mem_range.mpr hj)
  rw [mem_take_iff_countP_lt (fun x y => argRel row y x) (argsortDesc row)
    hpair hndup hanti j hmem k]
  rw [hperm.countP_eq]
  have hcongr : (List.range row.length).countP (fun x => decide (argRel row j x ∧ x ≠ j))
      = (List.range row.length).countP (fun x => decide (row.getD j 0 < row.getD x 0)) := by
    apply List.countP_congr
    intro x hx
    have hxC : x < row.length := List.mem_range.mp hx
    simp only [decide_eq_true_eq]
    constructor
    · rintro ⟨hr, hxj⟩
      rcases hr with h | ⟨heq, _⟩
      · exact h
      · exact absurd heq (getD_nodup_ne hnd hj hxC (fun hh => hxj hh.symm))
    · intro h
      exact ⟨Or.inl h, fun hxj => absurd (hxj ▸ h) (lt_irrefl _)⟩
  rw [hcongr, countP_range_getD (fun x => decide (row.getD j 0 < x)) 0 row,
    List.countP_eq_length_filter]

theorem accuracy_count_eq :
    ∀ (output : List (List Rat)) (target : List Nat) (C maxk k : Nat),
      target.length = output.length →
      (∀ row ∈ output, row.length = C) →
      (∀ row ∈ output, row.Nodup) →
      (∀ i, i < target.length → target.getD i 0 < C) →
      k ≤ maxk → maxk ≤ C →
      ((((tMat (output.map (fun row => (argsortDesc row).take maxk)) maxk).map
          (fun prow => List.zipWith (fun c t => c == t) prow target)).take k).map
            (fun crow => crow.count true)).sum
        = ((List.range output.length).filter (fun i =>
            decide (((output.getD i []).filter (fun x =>
              decide ((output.getD i []).getD (target.getD i 0) 0 < x))).length < k))).length := by
  intro output target C maxk k hlen hC hnd ht hkm hmC
  set n := output.length with hn
  set pred := output.map (fun row => (argsortDesc row).take maxk) with hpreddef
  have hplen : pred.length = n := by simp [hpreddef, hn]
  have hA : ((((tMat pred maxk).map
        (fun prow => List.zipWith (fun c t => c == t) prow target)).take k).map
        (fun crow => crow.count true))
      = (List.range k).map (fun r =>
          (List.zipWith (fun c t => c == t)
            (pred.map (fun row => row.getD r 0)) target).count true) := by
    rw [tMat, List.map_map, ← List.map_take, List.take_range, Nat.min_eq_left hkm,
      List.map_map]
    rfl
  rw [hA]
  have hB : ∀ r, (List.zipWith (fun c t => c == t)
        (pred.map (fun row => row.getD r 0)) target).count true
      = (List.range n).countP (fun i => (pred.getD i []).getD r 0 == target.getD i 0) := by
    intro r
    have hlen2 : (pred.map (fun row => row.getD r 0)).length = target.length := by
      simp [hplen, hlen]
    rw [count_true_zipWith (fun c t => c == t) 0 0 _ _ hlen2]
    rw [show (pred.map (fun row => row.getD r 0)).length = n from by simp [hplen]]
    apply List.countP_congr
    intro i hi
    have hiN : i < n := List.mem_range.mp hi
    rw [getD_map_of_lt (fun row => row.getD r 0) pred i (by rw [hplen]; exact hiN) 0 []]
  simp only [hB]
  rw [sum_countP_swap (fun r i => (pred.getD i []).getD r 0 == target.getD i 0) k n]
  have hD : ∀ i ∈ List.range n,
      (List.range k).countP (fun r => (pred.getD i []).getD r 0 == target.getD i 0)
        = if (((output.getD i []).filter (fun x =>
            decide ((output.getD i []).getD (target.getD i 0) 0 < x))).length < k)
          then 1 else 0 := by
    intro i hi
    have hiN : i < n := List.mem_range.mp hi
    have hrow : pred.getD i [] = (argsortDesc (output.getD i [])).take maxk := by
      rw [hpreddef]
      exact getD_map_of_lt _ output i hiN [] []
    have hout_mem : output.getD i [] ∈ output := getD_mem_of_lt output i [] hiN
    have hrlen : (output.getD i []).length = C := hC _ hout_mem
    have hrownd : (output.getD i []).Nodup := hnd _ hout_mem
    have hlen_row : (pred.getD i []).length = maxk := by
      rw [hrow, List.length_take, length_argsortDesc, hrlen]
      exact Nat.min_eq_left hmC
    rw [countP_range_take_count (pred.getD i []) k (by rw [hlen_row]; exact hkm)
      (target.getD i 0)]
    rw [hrow, List.take_take, Nat.min_eq_left hkm]
    rw [count_take_nodup ((argsortDesc_perm _).nodup_iff.mpr (List.nodup_range _)) k
      (target.getD i 0)]
    have htj : target.getD i 0 < (output.getD i []).length := by
      rw [hrlen]
      exact ht i (by rw [hlen]; exact hiN)
    rw [if_congr (mem_argsortDesc_take_iff (output.getD i []) hrownd (target.getD i 0) k htj)
      rfl rfl]
  rw [List.map_congr_left hD]
  have hE : (fun i => if (((output.getD i []).filter (fun x =>
        decide ((output.getD i []).getD (target.getD i 0) 0 < x))).length < k)
          then 1 else 0)
      = (fun i => if (fun i' => decide ((((output.getD i' []).filter (fun x =>
          decide ((output.getD i' []).getD (target.getD i' 0) 0 < x))).length < k))) i
          then 1 else 0) := by
    funext i
    simp
  rw [hE, ← countP_eq_sum_map, List.countP_eq_length_filter]

/-- C6: for output rows with pairwise-distinct scores (ties are
implementation-defined in the code's sort and left open by the spec), each
`accuracy` entry for `k` is 100 times the fraction of examples whose true
label is among the `k` highest-scoring classes (fewer than `k` classes
score strictly higher), every entry lies in [0, 100], and for `topk = (1,)`
the entry is 100 times the fraction of examples whose highest-scoring class
is the true label. -/
theorem accuracy_topk_fraction :
    ∀ (output : List (List Rat)) (target : List Nat) (topk : List Nat) (C : Nat),
      0 < output.length →
      target.length = output.length →
      (∀ row ∈ output, row.length = C) →
      (∀ row ∈ output, row.Nodup) →
      (∀ i, i < target.length → target.getD i 0 < C) →
      (∀ k ∈ topk, k ≤ C) →
      (accuracy output target topk
        = topk.map (fun k =>
            100 * ((((List.range output.length).filter (fun i =>
              decide (((output.getD i []).filter (fun x =>
                decide ((output.getD i []).getD (target.getD i 0) 0 < x))).length < k))).length : Rat)
              / output.length)))
      ∧ (∀ v ∈ accuracy output target topk, 0 ≤ v ∧ v ≤ 100)
      ∧ (accuracy output target [1]
          = [100 * ((((List.range output.length).filter (fun i =>
              (output.getD i []).all (fun x =>
                decide (x ≤ (output.getD i []).getD (target.getD i 0) 0)))).length : Rat)
              / output.length)]) := by
  intro output target topk C hn0 hlen hC hnd ht hk
  have hCpos : 0 < C := lt_of_le_of_lt (Nat.zero_le _) (ht 0 (by rw [hlen]; exact hn0))
  have hnpos : (0 : Rat) < output.length := by
    exact_mod_cast hn0
  have main : ∀ tk : List Nat, (∀ k ∈ tk, k ≤ C) →
      accuracy output target tk = tk.map (fun k =>
        100 * ((((List.range output.length).filter (fun i =>
          decide (((output.getD i []).filter (fun x =>
            decide ((output.getD i []).getD (target.getD i 0) 0 < x))).length < k))).length : Rat)
          / output.length)) := by
    intro tk htk
    simp only [accuracy]
    apply List.map_congr_left
    intro k hkmem
    have hkm : k ≤ tk.foldl max 0 := le_foldl_max_of_mem tk 0 k hkmem
    have hmC : tk.foldl max 0 ≤ C := foldl_max_le tk 0 C (Nat.zero_le _) htk
    have hcast : ((((tMat (output.map (fun row => (argsortDesc row).take (tk.foldl max 0)))
          (tk.foldl max 0)).map
          (fun prow => List.zipWith (fun c t => c == t) prow target)).take k).map
          (fun crow => ((crow.count true : Nat) : Rat))).sum
        = ((((((tMat (output.map (fun row => (argsortDesc row).take (tk.foldl max 0)))
          (tk.foldl max 0)).map
          (fun prow => List.zipWith (fun c t => c == t) prow target)).take k).map
          (fun crow => crow.count true)).sum : Nat) : Rat) := by
      rw [Nat.cast_list_sum, List.map_map]
      rfl
    rw [hcast, accuracy_count_eq output target C (tk.foldl max 0) k hlen hC hnd ht hkm hmC,
      hlen]
    ring
  refine ⟨main topk hk, ?_, ?_⟩
  · rw [main topk hk]
    intro v hv
    obtain ⟨k, _, rfl⟩ := List.mem_map.mp hv
    set S := (List.range output.length).filter (fun i =>
        decide (((output.getD i []).filter (fun x =>
          decide ((output.getD i []).getD (target.getD i 0) 0 < x))).length < k)) with hS
    constructor
    · positivity
    · have hcle : ((S.length : Nat) : Rat) ≤ (output.length : Rat) := by
        rw [hS]
        exact_mod_cast le_trans (List.length_filter_le _ _) (le_of_eq (List.length_range _))
      exact le_trans
        (mul_le_mul_of_nonneg_left ((div_le_one hnpos).mpr hcle) (by norm_num))
        (by norm_num)
  · rw [main [1] (by intro k hk1; rw [List.mem_singleton] at hk1; omega)]
    rw [List.map_singleton]
    have hfeq : (List.range output.length).filter (fun i =>
        decide (((output.getD i []).filter (fun x =>
          decide ((output.getD i []).getD (target.getD i 0) 0 < x))).length < 1))
        = (List.range output.length).filter (fun i =>
          (output.getD i []).all (fun x =>
            decide (x ≤ (output.getD i []).getD (target.getD i 0) 0))) := by
      apply List.filter_congr
      intro i _
      rw [Bool.eq_iff_iff]
      simp only [decide_eq_true_eq, List.all_eq_true, Nat.lt_one_iff,
        List.length_eq_zero, List.filter_eq_nil_iff, decide_eq_true_eq]
      constructor
      · intro h x hx
        exact not_lt.mp (h x hx)
      · intro h x hx
        exact not_lt.mpr (h x hx)
    rw [hfeq]

/-- C6 (witness): the accuracy characterization at a concrete 2-example,
3-class output matrix with distinct scores. -/
theorem accuracy_topk_fraction_witness :
    (0 < [[(1 : Rat), 3, 2], [5, 4, 0]].length ∧
      [1, 0].length = [[(1 : Rat), 3, 2], [5, 4, 0]].length ∧
      (∀ row ∈ [[(1 : Rat), 3, 2], [5, 4, 0]], row.length = 3) ∧
      (∀ row ∈ [[(1 : Rat), 3, 2], [5, 4, 0]], row.Nodup) ∧
      (∀ i, i < [1, 0].length → [1, 0].getD i 0 < 3) ∧
      (∀ k ∈ [1, 2], k ≤ 3)) ∧
    ((accuracy [[(1 : Rat), 3, 2], [5, 4, 0]] [1, 0] [1, 2]
        = [1, 2].map (fun k =>
            100 * ((((List.range [[(1 : Rat), 3, 2], [5, 4, 0]].length).filter (fun i =>
              decide ((([[(1 : Rat), 3, 2], [5, 4, 0]].getD i []).filter (fun x =>
                decide (([[(1 : Rat), 3, 2], [5, 4, 0]].getD i []).getD ([1, 0].getD i 0) 0
                  < x))).length < k))).length : Rat)
              / [[(1 : Rat), 3, 2], [5, 4, 0]].length)))
      ∧ (∀ v ∈ accuracy [[(1 : Rat), 3, 2], [5, 4, 0]] [1, 0] [1, 2], 0 ≤ v ∧ v ≤ 100)
      ∧ (accuracy [[(1 : Rat), 3, 2], [5, 4, 0]] [1, 0] [1]
          = [100 * ((((List.range [[(1 : Rat), 3, 2], [5, 4, 0]].length).filter (fun i =>
              ([[(1 : Rat), 3, 2], [5, 4, 0]].getD i []).all (fun x =>
                decide (x ≤ ([[(1 : Rat), 3, 2], [5, 4, 0]].getD i []).getD
                  ([1, 0].getD i 0) 0)))).length : Rat)
              / [[(1 : Rat), 3, 2], [5, 4, 0]].length)])) :=
  ⟨⟨by decide, by decide, by decide, by decide, by decide, by decide⟩,
    accuracy_topk_fraction [[(1 : Rat), 3, 2], [5, 4, 0]] [1, 0] [1, 2] 3
      (by decide) (by decide) (by decide) (by decide) (by decide) (by decide)⟩

/-! ## C9: the metrics functions do not mutate their array inputs -/

theorem preserves_refl (s : NpStore) : NpStore.Preserves s s :=
  ⟨le_refl _, fun _ _ => rfl⟩

theorem preserves_trans {s1 s2 s3 : NpStore} (h12 : NpStore.Preserves s1 s2)
    (h23 : NpStore.Preserves s2 s3) : NpStore.Preserves s1 s3 :=
  ⟨le_trans h12.1 h23.1, fun r hr => (h23.2 r (lt_of_lt_of_le hr h12.1)).trans (h12.2 r hr)⟩

theorem alloc_preserves (s : NpStore) (v : NpVal) : NpStore.Preserves s (s.alloc v).1 := by
  refine ⟨Nat.le_succ _, fun r hr => ?_⟩
  simp only [NpStore.alloc]
  rw [if_neg (by omega)]

theorem alloc_write_preserves (s : NpStore) (v v' : NpVal) :
    NpStore.Preserves s (((s.alloc v).1).write (s.alloc v).2 v') := by
  refine ⟨by simp [NpStore.alloc, NpStore.write], fun r hr => ?_⟩
  simp only [NpStore.alloc, NpStore.write]
  rw [if_neg (by omega), if_neg (by omega)]

theorem sort_sumS_spec (s : NpStore) (scoresR : Nat) :
    NpStore.Preserves s (sort_sumS s scoresR).1 ∧
    ((sort_sumS s scoresR).1.mem (sort_sumS s scoresR).2.1).asNM
      = (sort_sum ((s.mem scoresR).asRM)).1 ∧
    ((sort_sumS s scoresR).1.mem (sort_sumS s scoresR).2.2.1).asRM
      = (sort_sum ((s.mem scoresR).asRM)).2.1 ∧
    ((sort_sumS s scoresR).1.mem (sort_sumS s scoresR).2.2.2).asRM
      = (sort_sum ((s.mem scoresR).asRM)).2.2 := by
  refine ⟨⟨?_, ?_⟩, ?_, ?_, ?_⟩
  · simp only [sort_sumS, NpStore.alloc]
    omega
  · intro r hr
    simp only [sort_sumS, NpStore.alloc]
    rw [if_neg (by omega), if_neg (by omega), if_neg (by omega)]
  · simp only [sort_sumS, sort_sum, NpStore.alloc]
    rw [if_neg (by omega), if_neg (by omega)]
    simp [NpVal.asNM]
  · simp only [sort_sumS, sort_sum, NpStore.alloc]
    rw [if_neg (by omega)]
    simp [NpVal.asRM]
  · simp only [sort_sumS, sort_sum, NpStore.alloc]
    simp [NpVal.asRM]

theorem accuracyStep_fold (corr : List (List Bool)) (corrR batch_size : Nat) :
    ∀ (tk : List Nat) (st : NpStore) (res : List Nat),
      corrR < st.next → st.mem corrR = NpVal.bmat corr →
      (∀ rf ∈ res, rf < st.next) →
      NpStore.Preserves st (tk.foldl (accuracyStep corrR batch_size) (st, res)).1 ∧
      ((tk.foldl (accuracyStep corrR batch_size) (st, res)).2.map
          (fun rf =>
            (((tk.foldl (accuracyStep corrR batch_size) (st, res)).1.mem rf).asRV).getD 0 0))
        = res.map (fun rf => ((st.mem rf).asRV).getD 0 0)
          ++ tk.map (fun k =>
              (((corr.take k).map (fun crow => ((crow.count true : Nat) : Rat))).sum)
                * (100 / (batch_size : Rat))) := by
  intro tk
  induction tk with
  | nil =>
    intro st res _ _ _
    exact ⟨preserves_refl st, by simp⟩
  | cons k tk' ih =>
    intro st res hcorR hcorr hres
    rw [List.foldl_cons]
    have hstep : accuracyStep corrR batch_size (st, res) k
        = (((st.alloc (NpVal.rvec
              [((corr.take k).map (fun crow => ((crow.count true : Nat) : Rat))).sum])).1).write
            st.next
            (NpVal.rvec
              [(((corr.take k).map (fun crow => ((crow.count true : Nat) : Rat))).sum)
                * (100 / (batch_size : Rat))]),
          res ++ [st.next]) := by
      simp only [accuracyStep, hcorr, NpVal.asBM, NpStore.alloc, NpStore.write, NpVal.asRV]
      simp
    rw [hstep]
    have hpres2 : NpStore.Preserves st
        (((st.alloc (NpVal.rvec
            [((corr.take k).map (fun crow => ((crow.count true : Nat) : Rat))).sum])).1).write
          st.next
          (NpVal.rvec
            [(((corr.take k).map (fun crow => ((crow.count true : Nat) : Rat))).sum)
              * (100 / (batch_size : Rat))])) :=
      alloc_write_preserves st _ _
    have hnext2 : (((st.alloc (NpVal.rvec
          [((corr.take k).map (fun crow => ((crow.count true : Nat) : Rat))).sum])).1).write
          st.next
          (NpVal.rvec
            [(((corr.take k).map (fun crow => ((crow.count true : Nat) : Rat))).sum)
              * (100 / (batch_size : Rat))])).next = st.next + 1 := rfl
    have hcorr2 : (((st.alloc (NpVal.rvec
          [((corr.take k).map (fun crow => ((crow.count true : Nat) : Rat))).sum])).1).write
          st.next
          (NpVal.rvec
            [(((corr.take k).map (fun crow => ((crow.count true : Nat) : Rat))).sum)
              * (100 / (batch_size : Rat))])).mem corrR = NpVal.bmat corr := by
      simp only [NpStore.alloc, NpStore.write]
      rw [if_neg (by omega), if_neg (by omega)]
      exact hcorr
    obtain ⟨ihp, ihm⟩ := ih _ (res ++ [st.next])
      (by rw [hnext2]; omega) hcorr2
      (by
        intro rf hrf
        rw [hnext2]
        rcases List.mem_append.mp hrf with h | h
        · exact lt_trans (hres rf h) (Nat.lt_succ_self _)
        · rw [List.mem_singleton] at h
          omega)
    refine ⟨preserves_trans hpres2 ihp, ?_⟩
    rw [ihm, List.map_append, List.append_assoc]
    congr 1
    · apply List.map_congr_left
      intro rf hrf
      rw [hpres2.2 rf (hres rf hrf)]
    · rw [List.map_singleton, List.singleton_append, List.map_cons]
      congr 1
      simp [NpStore.alloc, NpStore.write, NpVal.asRV]

theorem accuracyS_spec (s : NpStore) (outputR targetR : Nat) (topk : List Nat) :
    NpStore.Preserves s (accuracyS s outputR targetR topk).1 ∧
    ((accuracyS s outputR targetR topk).2.map
        (fun rf => (((accuracyS s outputR targetR topk).1.mem rf).asRV).getD 0 0))
      = accuracy ((s.mem outputR).asRM) ((s.mem targetR).asNV) topk := by
  have hs2 : accuracyS s outputR targetR topk
      = topk.foldl
          (accuracyStep (s.next + 1) ((s.mem targetR).asNV).length)
          (⟨s.next + 2, fun r =>
              if r = s.next + 1 then
                NpVal.bmat ((tMat (((s.mem outputR).asRM).map
                    (fun row => (argsortDesc row).take (topk.foldl max 0)))
                    (topk.foldl max 0)).map
                  (fun prow => List.zipWith (fun c t => c == t) prow ((s.mem targetR).asNV)))
              else if r = s.next then
                NpVal.nmat (((s.mem outputR).asRM).map
                  (fun row => (argsortDesc row).take (topk.foldl max 0)))
              else s.mem r⟩, []) := by
    simp only [accuracyS, NpStore.alloc, NpVal.asNM]
    simp
  rw [hs2]
  obtain ⟨hp, hm⟩ := accuracyStep_fold
    ((tMat (((s.mem outputR).asRM).map
        (fun row => (argsortDesc row).take (topk.foldl max 0))) (topk.foldl max 0)).map
      (fun prow => List.zipWith (fun c t => c == t) prow ((s.mem targetR).asNV)))
    (s.next + 1) ((s.mem targetR).asNV).length topk
    (⟨s.next + 2, fun r =>
        if r = s.next + 1 then
          NpVal.bmat ((tMat (((s.mem outputR).asRM).map
              (fun row => (argsortDesc row).take (topk.foldl max 0)))
              (topk.foldl max 0)).map
            (fun prow => List.zipWith (fun c t => c == t) prow ((s.mem targetR).asNV)))
        else if r = s.next then
          NpVal.nmat (((s.mem outputR).asRM).map
            (fun row => (argsortDesc row).take (topk.foldl max 0)))
        else s.mem r⟩ : NpStore) []
    (by show s.next + 1 < s.next + 2; omega)
    (by show (if s.next + 1 = s.next + 1 then _ else _) = _; rw [if_pos rfl])
    (by simp)
  refine ⟨?_, ?_⟩
  · refine preserves_trans ⟨by show s.next ≤ s.next + 2; omega, fun r hr => ?_⟩ hp
    show (if r = s.next + 1 then _ else if r = s.next then _ else s.mem r) = s.mem r
    rw [if_neg (by omega), if_neg (by omega)]
  · rw [hm]
    simp only [List.map_nil, List.nil_append]
    simp only [accuracy]

theorem covStepPure_fold_none (sets : List (List Bool)) (targets : List Nat) (c0 P : Nat) :
    ∀ l : List (Nat × Nat), l.foldl (covStepPure sets targets c0 P) none = none := by
  intro l
  induction l with
  | nil => rfl
  | cons p l' ih => rw [List.foldl_cons]; exact ih

theorem covStep_fold_false (sets : List (List Bool)) (targets : List Nat)
    (cvR szR c0 P : Nat) :
    ∀ (l : List (Nat × Nat)) (st : NpStore),
      l.foldl (covStep sets targets cvR szR c0 P) (st, false) = (st, false) := by
  intro l
  induction l with
  | nil => intro st; rfl
  | cons p l' ih =>
    intro st
    rw [List.foldl_cons, show covStep sets targets cvR szR c0 P (st, false) p = (st, false)
      from by simp [covStep]]
    exact ih st

theorem covStep_fold_sim (sets : List (List Bool)) (targets : List Nat)
    (cvR szR c0 P : Nat) (hne : cvR ≠ szR) :
    ∀ (l : List (Nat × Nat)) (st : NpStore) (cv sz : List Rat),
      st.mem cvR = NpVal.rvec cv → st.mem szR = NpVal.rvec sz →
      (l.foldl (covStep sets targets cvR szR c0 P) (st, true)).1.next = st.next ∧
      (∀ r, r ≠ cvR → r ≠ szR →
        (l.foldl (covStep sets targets cvR szR c0 P) (st, true)).1.mem r = st.mem r) ∧
      (l.foldl (covStepPure sets targets c0 P) (some (cv, sz)) = none →
        (l.foldl (covStep sets targets cvR szR c0 P) (st, true)).2 = false) ∧
      (∀ cv' sz', l.foldl (covStepPure sets targets c0 P) (some (cv, sz)) = some (cv', sz') →
        (l.foldl (covStep sets targets cvR szR c0 P) (st, true)).2 = true ∧
        (l.foldl (covStep sets targets cvR szR c0 P) (st, true)).1.mem cvR = NpVal.rvec cv' ∧
        (l.foldl (covStep sets targets cvR szR c0 P) (st, true)).1.mem szR = NpVal.rvec sz') := by
  intro l
  induction l with
  | nil =>
    intro st cv sz hcv hsz
    refine ⟨rfl, fun _ _ _ => rfl, by simp, ?_⟩
    intro cv' sz' h
    rw [List.foldl_nil, Option.some.injEq, Prod.mk.injEq] at h
    exact ⟨rfl, h.1 ▸ hcv, h.2 ▸ hsz⟩
  | cons p l' ih =>
    intro st cv sz hcv hsz
    rw [List.foldl_cons, List.foldl_cons]
    by_cases hp : p.1 < c0
    · have hpure : covStepPure sets targets c0 P (some (cv, sz)) p
          = some (setSlice cv (p.1 * P) (List.replicate P (clsCvgVal sets targets p.2)),
                  setSlice sz (p.1 * P) (List.replicate P (clsSzVal sets targets p.2))) := by
        simp [covStepPure, hp]
      have hszr : szR ≠ cvR := Ne.symm hne
      have hmemsz : (st.write cvR (NpVal.rvec
          (setSlice cv (p.1 * P) (List.replicate P (clsCvgVal sets targets p.2))))).mem szR
          = NpVal.rvec sz := by
        simp [NpStore.write, hszr, hsz]
      have hstep : covStep sets targets cvR szR c0 P (st, true) p
          = ((st.write cvR (NpVal.rvec
                (setSlice cv (p.1 * P) (List.replicate P (clsCvgVal sets targets p.2))))).write
              szR (NpVal.rvec
                (setSlice sz (p.1 * P) (List.replicate P (clsSzVal sets targets p.2)))),
             true) := by
        simp [covStep, hp, hcv, hmemsz, NpVal.asRV]
      rw [hpure, hstep]
      have hcv2 : ((st.write cvR (NpVal.rvec
            (setSlice cv (p.1 * P) (List.replicate P (clsCvgVal sets targets p.2))))).write
              szR (NpVal.rvec
                (setSlice sz (p.1 * P) (List.replicate P (clsSzVal sets targets p.2))))).mem cvR
          = NpVal.rvec (setSlice cv (p.1 * P) (List.replicate P (clsCvgVal sets targets p.2))) := by
        simp [NpStore.write, hne]
      have hsz2 : ((st.write cvR (NpVal.rvec
            (setSlice cv (p.1 * P) (List.replicate P (clsCvgVal sets targets p.2))))).write
              szR (NpVal.rvec
                (setSlice sz (p.1 * P) (List.replicate P (clsSzVal sets targets p.2))))).mem szR
          = NpVal.rvec (setSlice sz (p.1 * P) (List.replicate P (clsSzVal sets targets p.2))) := by
        simp [NpStore.write]
      obtain ⟨ihn, ihm, ihnone, ihsome⟩ := ih _ _ _ hcv2 hsz2
      refine ⟨ihn, ?_, ihnone, ihsome⟩
      intro r hrc hrs
      rw [ihm r hrc hrs]
      simp [NpStore.write, hrc, hrs]
    · have hpure : covStepPure sets targets c0 P (some (cv, sz)) p = none := by
        simp [covStepPure, hp]
      have hstep : covStep sets targets cvR szR c0 P (st, true) p = (st, false) := by
        simp [covStep, hp]
      rw [hpure, hstep, covStep_fold_false, covStepPure_fold_none]
      refine ⟨rfl, fun _ _ _ => rfl, fun _ => rfl, ?_⟩
      intro cv' sz' h
      exact absurd h (by simp)

theorem coverage_sizeS_spec (s : NpStore) (setsR targetsR : Nat) :
    NpStore.Preserves s (coverage_sizeS s setsR targetsR).1 ∧
    (coverage_sizeS s setsR targetsR).2
      = coverage_size ((s.mem setsR).asBM) ((s.mem targetsR).asNV) := by
  by_cases h1 : ((s.mem targetsR).asNV).length = 0
  · rw [show coverage_sizeS s setsR targetsR = (s, none) from by simp [coverage_sizeS, h1],
      show coverage_size ((s.mem setsR).asBM) ((s.mem targetsR).asNV) = none from by
        simp [coverage_size, h1]]
    exact ⟨preserves_refl s, rfl⟩
  · by_cases h2 : ((s.mem setsR).asBM).length ≠ ((s.mem targetsR).asNV).length
    · rw [show coverage_sizeS s setsR targetsR = (s, none) from by
        simp [coverage_sizeS, h1, h2],
        show coverage_size ((s.mem setsR).asBM) ((s.mem targetsR).asNV) = none from by
          simp [coverage_size, h1, h2]]
      exact ⟨preserves_refl s, rfl⟩
    · by_cases h3 : ¬ ((List.range ((s.mem targetsR).asNV).length).all
          (fun i => decide (((s.mem targetsR).asNV).getD i 0
            < (((s.mem setsR).asBM).getD i []).length)))
      · rw [show coverage_sizeS s setsR targetsR = (s, none) from by
          simp only [coverage_sizeS]
          rw [if_neg h1, if_neg h2, if_pos h3],
          show coverage_size ((s.mem setsR).asBM) ((s.mem targetsR).asNV) = none from by
            simp only [coverage_size]
            rw [if_neg h1, if_neg h2, if_pos h3]]
        exact ⟨preserves_refl s, rfl⟩
      · simp only [coverage_sizeS, coverage_size, NpStore.alloc]
        rw [if_neg h1, if_neg h1, if_neg h2, if_neg h2, if_neg h3, if_neg h3]
        generalize (s.mem setsR).asBM = SB
        generalize hTG : (s.mem targetsR).asNV = TG
        generalize hc0 : (List.map (fun c => List.count c TG) (npUnique TG)).headD 0 = c0
        generalize hP : (List.drop 1 (List.map (fun c => List.count c TG) (npUnique TG))).prod = P
        generalize hl : (npUnique TG).enum = l
        obtain ⟨hnext, hmem, hnone, hsome⟩ :=
          covStep_fold_sim SB TG s.next (s.next + 1) c0 P (by omega) l
            (⟨s.next + 1 + 1, fun r =>
                if r = s.next + 1 then NpVal.rvec (List.replicate (c0 * P) 0)
                else if r = s.next then NpVal.rvec (List.replicate (c0 * P) 0)
                else s.mem r⟩ : NpStore)
            (List.replicate (c0 * P) 0) (List.replicate (c0 * P) 0)
            (by show (if s.next = s.next + 1 then _ else if s.next = s.next then _ else _) = _
                rw [if_neg (by omega), if_pos rfl])
            (by show (if s.next + 1 = s.next + 1 then _ else _) = _
                rw [if_pos rfl])
        rcases hpl : l.foldl (covStepPure SB TG c0 P)
            (some (List.replicate (c0 * P) 0, List.replicate (c0 * P) 0))
          with _ | ⟨cv', sz'⟩
        · have hb := hnone hpl
          rw [hb, if_neg Bool.false_ne_true]
          refine ⟨⟨?_, ?_⟩, rfl⟩
          · rw [hnext]
            show s.next ≤ s.next + 1 + 1
            omega
          · intro r hr
            rw [hmem r (by omega) (by omega)]
            show (if r = s.next + 1 then _ else if r = s.next then _ else s.mem r) = s.mem r
            rw [if_neg (by omega), if_neg (by omega)]
        · obtain ⟨hb, hcv, hsz⟩ := hsome cv' sz' hpl
          rw [hb, if_pos rfl, hcv, hsz]
          refine ⟨⟨?_, ?_⟩, by simp [NpVal.asRV]⟩
          · rw [hnext]
            show s.next ≤ s.next + 1 + 1
            omega
          · intro r hr
            rw [hmem r (by omega) (by omega)]
            show (if r = s.next + 1 then _ else if r = s.next then _ else s.mem r) = s.mem r
            rw [if_neg (by omega), if_neg (by omega)]

/-- C9: the metrics functions are pure with respect to their array inputs:
re-run on a store of arrays, `sort_sum`, `accuracy` and `coverage_size`
write only freshly allocated references — every array that existed before
the call, in particular the score/prediction-set/target inputs, is
unchanged — and the contents of their results are exactly the pure
functions of the input arrays' contents. -/
theorem metrics_store_pure :
    ∀ (s : NpStore) (scoresR outputR targetR setsR targR : Nat) (topk : List Nat),
      (NpStore.Preserves s (sort_sumS s scoresR).1 ∧
        ((sort_sumS s scoresR).1.mem (sort_sumS s scoresR).2.1).asNM
          = (sort_sum ((s.mem scoresR).asRM)).1 ∧
        ((sort_sumS s scoresR).1.mem (sort_sumS s scoresR).2.2.1).asRM
          = (sort_sum ((s.mem scoresR).asRM)).2.1 ∧
        ((sort_sumS s scoresR).1.mem (sort_sumS s scoresR).2.2.2).asRM
          = (sort_sum ((s.mem scoresR).asRM)).2.2) ∧
      (NpStore.Preserves s (accuracyS s outputR targetR topk).1 ∧
        ((accuracyS s outputR targetR topk).2.map
            (fun rf => (((accuracyS s outputR targetR topk).1.mem rf).asRV).getD 0 0))
          = accuracy ((s.mem outputR).asRM) ((s.mem targetR).asNV) topk) ∧
      (NpStore.Preserves s (coverage_sizeS s setsR targR).1 ∧
        (coverage_sizeS s setsR targR).2
          = coverage_size ((s.mem setsR).asBM) ((s.mem targR).asNV)) :=
  fun s scoresR outputR targetR setsR targR topk =>
    ⟨sort_sumS_spec s scoresR, accuracyS_spec s outputR targetR topk,
      coverage_sizeS_spec s setsR targR⟩
